import Mathlib

/-!
Verification of the node label/tag synchronization controller
(`controller.go` of `k8s-node-tagger`).

Go `map[string]string` values are embedded as association lists
(`StrMap`) whose observable behaviour is `StrMap.find`; insertion,
deletion and iteration mirror the Go map operations.  The controller
functions (`shouldProcessNodeUpdate`, `Reconcile`, `syncAWSTags`,
`syncGCPLabels`, `parseGCPProviderID`, `sanitizeKeyForGCP`,
`sanitizeValueForGCP`) are translated directly from the Go source;
the cloud SDK calls are abstracted into explicit environment records
(`AWSEnv`, `GCPEnv`) recording the answers the remote side would give,
and each sync function returns the list of remote calls it issued.
-/

/-- Shallow embedding of Go `map[string]string`: an association list.
`find` is map lookup; a `nil` Go map is the empty list. -/
abbrev StrMap := List (String × String)

namespace StrMap

/-- Go map lookup `m[k]`. -/
def find (m : StrMap) (k : String) : Option String :=
  (m.find? (fun p => p.1 == k)).map (fun p => p.2)

/-- Go `_, ok := m[k]`. -/
def contains (m : StrMap) (k : String) : Bool :=
  (m.find k).isSome

/-- Go map deletion `delete(m, k)`. -/
def erase (m : StrMap) (k : String) : StrMap :=
  m.filter (fun p => p.1 != k)

/-- Go map assignment `m[k] = v`. -/
def insert (m : StrMap) (k v : String) : StrMap :=
  (k, v) :: m.erase k

/-- The keys of the map, in entry order. -/
def keys (m : StrMap) : List String :=
  m.map (fun p => p.1)

/-- A well-formed Go map never holds two entries for one key. -/
def NodupKeys (m : StrMap) : Prop :=
  m.keys.Nodup

/-- Go `maps.Equal`: same keys, same values. -/
def equalb (m1 m2 : StrMap) : Bool :=
  m1.all (fun p => m2.find p.1 == some p.2) &&
  m2.all (fun p => m1.find p.1 == some p.2)

/-- Value of the last entry for `k`, mirroring "last write wins" when an
association list is poured into a Go map entry by entry. -/
def findLast (m : StrMap) (k : String) : Option String :=
  (m.reverse.find? (fun p => p.1 == k)).map (fun p => p.2)

theorem find_nil (k : String) : find [] k = none := rfl

theorem find_cons (p : String × String) (m : StrMap) (k : String) :
    find (p :: m) k = if p.1 = k then some p.2 else find m k := by
  by_cases h : p.1 = k <;> simp [find, List.find?_cons, h]

theorem find_erase (m : StrMap) (k k' : String) :
    find (erase m k) k' = if k' = k then none else find m k' := by
  induction m with
  | nil => by_cases h : k' = k <;> simp [erase, find, h]
  | cons p m ih =>
    by_cases hp : p.1 = k
    · have h2 : erase (p :: m) k = erase m k := by
        simp [erase, List.filter_cons, hp]
      rw [h2, ih, find_cons]
      split_ifs with h1 h3 <;> simp_all
    · have h2 : erase (p :: m) k = p :: erase m k := by
        simp [erase, List.filter_cons, hp]
      rw [h2, find_cons, ih, find_cons]
      split_ifs with h1 h3 <;> simp_all

theorem find_insert (m : StrMap) (k v k' : String) :
    find (insert m k v) k' = if k' = k then some v else find m k' := by
  by_cases h : k' = k <;> simp [insert, find_cons, find_erase, h]
  exact fun h2 => absurd h2.symm h

theorem find_filter_key (q : String → Bool) (m : StrMap) (k : String) :
    find (m.filter (fun p => q p.1)) k = if q k then find m k else none := by
  induction m with
  | nil => by_cases h : q k <;> simp [find, h]
  | cons p m ih =>
    rw [List.filter_cons]
    by_cases hp : q p.1
    · rw [if_pos (by simp [hp]), find_cons, ih, find_cons]
      split_ifs with h1 h3 <;> simp_all
    · rw [if_neg (by simp [hp]), ih]
      split_ifs with h1
      · rw [find_cons, if_neg (fun hh : p.1 = k => hp (hh ▸ h1))]
      · rfl

theorem find_eq_none_iff (m : StrMap) (k : String) :
    find m k = none ↔ ∀ p ∈ m, p.1 ≠ k := by
  simp [find, List.find?_eq_none]

theorem mem_of_find_eq_some (m : StrMap) (k v : String)
    (h : find m k = some v) : (k, v) ∈ m := by
  simp only [find, Option.map_eq_some'] at h
  obtain ⟨p, hp, hv⟩ := h
  have hmem := List.mem_of_find?_eq_some hp
  have hkey := List.find?_some hp
  simp only [beq_iff_eq] at hkey
  have : p = (k, v) := by
    cases p
    simp_all
  exact this ▸ hmem

theorem findLast_cons (p : String × String) (m : StrMap) (k : String) :
    findLast (p :: m) k =
      match findLast m k with
      | some v => some v
      | none => if p.1 = k then some p.2 else none := by
  simp only [findLast, List.reverse_cons, List.find?_append]
  cases hm : (m.reverse.find? (fun p => p.1 == k)) with
  | some v => simp [Option.or]
  | none =>
    by_cases h : p.1 = k <;> simp [Option.or, List.find?_cons, h]

theorem findLast_nil (k : String) : findLast [] k = none := rfl

/-- Pouring an association list into a map entry by entry: the last
entry for a key wins; keys not in the list keep the base map's value. -/
theorem find_foldl_insert (ds : List (String × String)) (m0 : StrMap)
    (k : String) :
    find (ds.foldl (fun acc p => acc.insert p.1 p.2) m0) k =
      match findLast ds k with
      | some v => some v
      | none => find m0 k := by
  induction ds generalizing m0 with
  | nil => simp [findLast_nil]
  | cons p ds ih =>
    rw [List.foldl_cons, ih, findLast_cons, find_insert]
    cases findLast ds k with
    | some v => rfl
    | none =>
      by_cases h : p.1 = k
      · simp [h]
      · simp [h, Ne.symm h]

theorem keys_erase_sublist (m : StrMap) (k : String) :
    List.Sublist (keys (erase m k)) (keys m) := by
  have h := (@List.filter_sublist (String × String)
    (fun p => p.1 != k) m).map (fun p => p.1)
  exact h

theorem nodupKeys_erase (m : StrMap) (k : String) (h : NodupKeys m) :
    NodupKeys (erase m k) :=
  (keys_erase_sublist m k).nodup h

theorem not_mem_keys_erase (m : StrMap) (k : String) :
    k ∉ keys (erase m k) := by
  intro hmem
  simp only [keys, List.mem_map] at hmem
  obtain ⟨p, hp, hk⟩ := hmem
  have := List.of_mem_filter hp
  simp [hk] at this

theorem nodupKeys_insert (m : StrMap) (k v : String) (h : NodupKeys m) :
    NodupKeys (insert m k v) := by
  simp only [insert, NodupKeys, keys, List.map_cons, List.nodup_cons]
  exact ⟨not_mem_keys_erase m k, nodupKeys_erase m k h⟩

theorem nodupKeys_foldl_insert (ds : List (String × String)) (m0 : StrMap)
    (h : NodupKeys m0) :
    NodupKeys (ds.foldl (fun acc p => acc.insert p.1 p.2) m0) := by
  induction ds generalizing m0 with
  | nil => exact h
  | cons p ds ih => exact ih _ (nodupKeys_insert m0 p.1 p.2 h)

theorem nodupKeys_filter (q : String × String → Bool) (m : StrMap)
    (h : NodupKeys m) : NodupKeys (m.filter q) := by
  have hs := (@List.filter_sublist (String × String) q m).map (fun p => p.1)
  exact hs.nodup h

theorem find_eq_some_of_mem (m : StrMap) (p : String × String)
    (hnd : NodupKeys m) (hmem : p ∈ m) : find m p.1 = some p.2 := by
  induction m with
  | nil => cases hmem
  | cons q m ih =>
    have hnd2 : NodupKeys m := (List.nodup_cons.mp hnd).2
    rcases List.mem_cons.mp hmem with h | h
    · subst h
      simp [find_cons]
    · rw [find_cons]
      have hq : q.1 ≠ p.1 := by
        intro he
        have hin : q.1 ∈ keys m := by
          simp only [keys, List.mem_map]
          exact ⟨p, h, he.symm⟩
        exact (List.nodup_cons.mp hnd).1 hin
      rw [if_neg hq]
      exact ih hnd2 h

theorem findLast_eq_find_of_nodup (m : StrMap) (k : String)
    (h : NodupKeys m) : findLast m k = find m k := by
  cases hf : find m k with
  | some v =>
    have hmem : (k, v) ∈ m := mem_of_find_eq_some m k v hf
    have hmemr : (k, v) ∈ m.reverse := List.mem_reverse.mpr hmem
    have hndr : NodupKeys m.reverse := by
      simpa [NodupKeys, keys, List.map_reverse] using
        (List.nodup_reverse.mpr h)
    have := find_eq_some_of_mem m.reverse (k, v) hndr hmemr
    simpa [findLast, find] using this
  | none =>
    rw [find_eq_none_iff] at hf
    simp only [findLast, Option.map_eq_none', List.find?_eq_none]
    intro p hp
    simpa using hf p (List.mem_reverse.mp hp)

theorem equalb_of_ext (m1 m2 : StrMap) (h1 : NodupKeys m1)
    (h2 : NodupKeys m2) (hext : ∀ k, find m1 k = find m2 k) :
    equalb m1 m2 = true := by
  simp only [equalb, Bool.and_eq_true, List.all_eq_true]
  constructor
  · intro p hp
    have := find_eq_some_of_mem m1 p h1 hp
    simp [← hext p.1, this]
  · intro p hp
    have := find_eq_some_of_mem m2 p h2 hp
    simp [hext p.1, this]

theorem findLast_eq_none_iff (m : StrMap) (k : String) :
    findLast m k = none ↔ ∀ p ∈ m, p.1 ≠ k := by
  simp only [findLast, Option.map_eq_none', List.find?_eq_none,
    beq_iff_eq, List.mem_reverse]

theorem mem_of_findLast_eq_some (m : StrMap) (k v : String)
    (h : findLast m k = some v) : (k, v) ∈ m := by
  simp only [findLast, Option.map_eq_some'] at h
  obtain ⟨p, hp, hv⟩ := h
  have hmem := List.mem_reverse.mp (List.mem_of_find?_eq_some hp)
  have hkey := List.find?_some hp
  simp only [beq_iff_eq] at hkey
  have hpkv : p = (k, v) := by
    cases p
    simp_all
  exact hpkv ▸ hmem

/-- A fold that inserts only the entries passing `c` equals the plain
insert-fold over the filtered list. -/
theorem foldl_insert_filter (c : String × String → Bool)
    (ds : List (String × String)) (m0 : StrMap) :
    ds.foldl
      (fun acc p => if c p then insert acc p.1 p.2 else acc) m0 =
      (ds.filter c).foldl (fun acc p => insert acc p.1 p.2) m0 := by
  induction ds generalizing m0 with
  | nil => rfl
  | cons p ds ih =>
    rw [List.foldl_cons, List.filter_cons]
    by_cases h : c p
    · rw [if_pos h, if_pos h, List.foldl_cons, ih]
    · rw [if_neg h, if_neg h, ih]

theorem find_foldl_erase (dels : List String) (m : StrMap)
    (k : String) :
    find (dels.foldl erase m) k =
      if dels.contains k then none else find m k := by
  induction dels generalizing m with
  | nil => simp
  | cons d dels ih =>
    rw [List.foldl_cons, ih]
    by_cases h : dels.contains k
    · rw [if_pos h, if_pos (by simp_all)]
    · rw [if_neg h, find_erase]
      by_cases h2 : k = d
      · rw [if_pos h2, if_pos (by simp [h2])]
      · rw [if_neg h2, if_neg (by
          simp only [List.contains_cons, Bool.or_eq_true]
          rintro (hh | hh)
          · exact h2 (by simpa using hh.symm)
          · exact h (by simpa using hh))]

theorem findLast_filter_key (q : String → Bool) (m : StrMap)
    (k : String) :
    findLast (m.filter (fun p => q p.1)) k =
      if q k then findLast m k else none := by
  show Option.map _ (List.find? _ (m.filter (fun p => q p.1)).reverse)
    = _
  rw [← List.filter_reverse]
  exact find_filter_key q m.reverse k

/-- Characterization of the label/annotation collection loops in
`Reconcile`: fold over a key list, inserting `h k` when present. -/
theorem find_foldl_insert_lookup (ks : List String)
    (h : String → Option String) (m0 : StrMap) (k : String) :
    find (ks.foldl
      (fun acc kk =>
        match h kk with
        | some v => insert acc kk v
        | none => acc) m0) k =
      if ks.contains k then
        match h k with
        | some v => some v
        | none => find m0 k
      else find m0 k := by
  induction ks generalizing m0 with
  | nil => simp
  | cons kk ks ih =>
    rw [List.foldl_cons, ih]
    by_cases hks : ks.contains k
    · rw [if_pos hks,
        if_pos (show (kk :: ks).contains k = true by simp_all)]
      cases hv : h k with
      | some v => simp [hv]
      | none =>
        simp only [hv]
        cases hkv : h kk with
        | none => rfl
        | some w =>
          rw [find_insert]
          by_cases hkk : k = kk
          · subst hkk
            rw [hkv] at hv
            cases hv
          · rw [if_neg hkk]
    · rw [if_neg hks]
      by_cases hkk : kk = k
      · subst hkk
        rw [if_pos (show (kk :: ks).contains kk = true by simp)]
        cases hv : h kk with
        | some v => rw [find_insert, if_pos rfl]
        | none => rfl
      · have hcc : ¬((kk :: ks).contains k = true) := by
          simp only [List.contains_cons, Bool.or_eq_true]
          rintro (hh | hh)
          · have hkeq : k = kk := by simpa using hh
            exact hkk hkeq.symm
          · exact hks (by simpa using hh)
        rw [if_neg hcc]
        cases hv : h kk with
        | some v => rw [find_insert, if_neg (fun hc => hkk hc.symm)]
        | none => rfl

theorem nodupKeys_foldl_insert_lookup (ks : List String)
    (h : String → Option String) (m0 : StrMap) (hm : NodupKeys m0) :
    NodupKeys (ks.foldl
      (fun acc kk =>
        match h kk with
        | some v => insert acc kk v
        | none => acc) m0) := by
  induction ks generalizing m0 with
  | nil => exact hm
  | cons kk ks ih =>
    rw [List.foldl_cons]
    cases hv : h kk with
    | some v =>
      simp only [hv]
      exact ih _ (nodupKeys_insert m0 kk v hm)
    | none =>
      simp only [hv]
      exact ih _ hm

end StrMap

/-- Per-character action of Go
`strings.NewReplacer("/", "_", ".", "-").Replace`. -/
def replCh (c : Char) : Char :=
  if c = '/' then '_' else if c = '.' then '-' else c

/-- The character class trimmed by Go `strings.TrimRight(key, "-_")`. -/
def trimCh (c : Char) : Bool :=
  c == '-' || c == '_'

/-- Model of Go `strings.ToLower` (per-character ASCII case mapping). -/
def goToLower (s : String) : String :=
  String.mk (s.data.map Char.toLower)

/-- Model of `strings.NewReplacer("/", "_", ".", "-").Replace`. -/
def goReplaceGCP (s : String) : String :=
  String.mk (s.data.map replCh)

/-- Model of `strings.TrimRight(s, "-_")`. -/
def goTrimRightGCP (s : String) : String :=
  String.mk ((s.data.reverse.dropWhile trimCh).reverse)

/-- Model of the Go clause `if len(s) > 63 { s = s[:63] }`.  Monitored
Kubernetes keys are ASCII, so byte truncation is character truncation. -/
def goTruncate63 (s : String) : String :=
  if s.data.length > 63 then String.mk (s.data.take 63) else s

/-- `sanitizeKeyForGCP` from `controller.go`: lowercase, replace the
disallowed characters, trim trailing `-`/`_`, then truncate to 63. -/
def sanitizeKeyForGCP (key : String) : String :=
  let key1 := String.mk (key.data.map Char.toLower)
  let key2 := String.mk (key1.data.map replCh)
  let key3 := String.mk ((key2.data.reverse.dropWhile trimCh).reverse)
  if key3.data.length > 63 then String.mk (key3.data.take 63) else key3

/-- `sanitizeValueForGCP` from `controller.go`: truncation only. -/
def sanitizeValueForGCP (value : String) : String :=
  if value.data.length > 63 then String.mk (value.data.take 63) else value

theorem toLower_unfold (c : Char) :
    Char.toLower c =
      if c.toNat ≥ 65 ∧ c.toNat ≤ 90 then Char.ofNat (c.toNat + 32)
      else c := rfl

theorem char_toNat_ofNat_valid (n : Nat) (h : n.isValidChar) :
    (Char.ofNat n).toNat = n := by
  rw [Char.ofNat, dif_pos h]
  rfl

theorem toLower_idem (c : Char) :
    Char.toLower (Char.toLower c) = Char.toLower c := by
  by_cases h : c.toNat ≥ 65 ∧ c.toNat ≤ 90
  · have hv : Nat.isValidChar (c.toNat + 32) := Or.inl (by omega)
    have h2 : (Char.toLower c).toNat = c.toNat + 32 := by
      rw [toLower_unfold, if_pos h, char_toNat_ofNat_valid _ hv]
    rw [toLower_unfold (Char.toLower c), if_neg (by rw [h2]; omega)]
  · rw [toLower_unfold c, if_neg h, toLower_unfold c, if_neg h]

/-- Characters produced by lowercasing-then-replacing are fixed points
of both lowercasing and replacing. -/
theorem replCh_toLower_fixed (c : Char) :
    Char.toLower (replCh (Char.toLower c)) = replCh (Char.toLower c) ∧
    replCh (replCh (Char.toLower c)) = replCh (Char.toLower c) := by
  by_cases h1 : Char.toLower c = '/'
  · rw [h1]
    exact ⟨by decide, by decide⟩
  · by_cases h2 : Char.toLower c = '.'
    · rw [h2]
      exact ⟨by decide, by decide⟩
    · have hr : replCh (Char.toLower c) = Char.toLower c := by
        rw [replCh, if_neg h1, if_neg h2]
      rw [hr]
      exact ⟨toLower_idem c, hr⟩

theorem dropWhile_idem {α : Type} (p : α → Bool) (l : List α) :
    (l.dropWhile p).dropWhile p = l.dropWhile p := by
  induction l with
  | nil => rfl
  | cons a l ih =>
    by_cases h : p a
    · simp [List.dropWhile_cons, h, ih]
    · simp [List.dropWhile_cons, h]

theorem string_data_mk (l : List Char) : (String.mk l).data = l := rfl

/-- The key after lowercasing, character substitution and
trailing-trim, but before truncation. -/
def gcpTrimmedForm (key : String) : List Char :=
  (((key.data.map Char.toLower).map replCh).reverse.dropWhile
    trimCh).reverse

theorem sanitizeKey_eq_trimmed (key : String) :
    sanitizeKeyForGCP key =
      if (gcpTrimmedForm key).length > 63 then
        String.mk ((gcpTrimmedForm key).take 63)
      else String.mk (gcpTrimmedForm key) := rfl

theorem mem_gcpTrimmedForm {key : String} {c : Char}
    (hc : c ∈ gcpTrimmedForm key) :
    c ∈ (key.data.map Char.toLower).map replCh := by
  have h1 := List.mem_reverse.mp hc
  have h2 := (List.dropWhile_sublist trimCh).subset h1
  exact List.mem_reverse.mp h2

theorem gcpTrimmedForm_fixed {key : String} {c : Char}
    (hc : c ∈ gcpTrimmedForm key) :
    Char.toLower c = c ∧ replCh c = c := by
  have h2 := mem_gcpTrimmedForm hc
  obtain ⟨b, hb, hbc⟩ := List.mem_map.mp h2
  obtain ⟨a, _, hab⟩ := List.mem_map.mp hb
  subst hbc
  subst hab
  exact replCh_toLower_fixed a

/-- A key whose trimmed form fits in 63 characters is untouched by the
truncation and is a fixed point of the whole sanitizer. -/
theorem sanitizeKey_fixes_trimmed (key : String)
    (h : (gcpTrimmedForm key).length ≤ 63) :
    sanitizeKeyForGCP (sanitizeKeyForGCP key) = sanitizeKeyForGCP key := by
  have hs : sanitizeKeyForGCP key = String.mk (gcpTrimmedForm key) := by
    rw [sanitizeKey_eq_trimmed, if_neg (by omega)]
  have hmap1 : (gcpTrimmedForm key).map Char.toLower =
      gcpTrimmedForm key := by
    have hcg := List.map_congr_left (l := gcpTrimmedForm key)
      (f := Char.toLower) (g := fun c => c)
      (fun c hc => (gcpTrimmedForm_fixed hc).1)
    simpa using hcg
  have hmap2 : (gcpTrimmedForm key).map replCh = gcpTrimmedForm key := by
    have hcg := List.map_congr_left (l := gcpTrimmedForm key)
      (f := replCh) (g := fun c => c)
      (fun c hc => (gcpTrimmedForm_fixed hc).2)
    simpa using hcg
  have htrim : gcpTrimmedForm (String.mk (gcpTrimmedForm key)) =
      gcpTrimmedForm key := by
    show ((((gcpTrimmedForm key).map Char.toLower).map
      replCh).reverse.dropWhile trimCh).reverse = gcpTrimmedForm key
    rw [hmap1, hmap2]
    unfold gcpTrimmedForm
    rw [List.reverse_reverse, dropWhile_idem]
  rw [hs, sanitizeKey_eq_trimmed, htrim, if_neg (by omega)]

/-- A key on which the claimed non-idempotence of the sanitizer shows:
62 `a`s, a dash, then 10 more `a`s. -/
def gcpLongKey : String :=
  String.mk (List.replicate 62 'a' ++ '-' :: List.replicate 10 'a')

/-- Claim C4: the GCP key sanitizer is the composition lowercase, then
replace `/`→`_` and `.`→`-`, then trim trailing `-`/`_`, then truncate
to 63 characters, in this order; `sanitizeKey "Example/Key" =
"example_key"`, `sanitizeKey "Domain.com/Key" = "domain-com_key"`, a
70-character key yields exactly 63 characters, and the value sanitizer
is truncation to 63 characters alone. -/
theorem sanitizeKey_stages_and_examples :
    (∀ key, sanitizeKeyForGCP key =
      goTruncate63 (goTrimRightGCP (goReplaceGCP (goToLower key)))) ∧
    sanitizeKeyForGCP "Example/Key" = "example_key" ∧
    sanitizeKeyForGCP "Domain.com/Key" = "domain-com_key" ∧
    (sanitizeKeyForGCP (String.mk (List.replicate 70 'a'))).data.length
      = 63 ∧
    (∀ value, sanitizeValueForGCP value = goTruncate63 value) := by
  refine ⟨fun key => rfl, by decide, by decide, by decide,
    fun value => rfl⟩

/-- Claim C10: the GCP key sanitizer is idempotent on every key whose
lowercased, substituted, trailing-trimmed form has at most 63
characters, but not idempotent in general: on `gcpLongKey` the
truncation re-exposes a trailing dash that a second application
removes. -/
theorem sanitizeKey_idem_short_not_general :
    (∀ key, (gcpTrimmedForm key).length ≤ 63 →
      sanitizeKeyForGCP (sanitizeKeyForGCP key) = sanitizeKeyForGCP key)
    ∧ sanitizeKeyForGCP (sanitizeKeyForGCP gcpLongKey) ≠
        sanitizeKeyForGCP gcpLongKey :=
  ⟨sanitizeKey_fixes_trimmed, by decide⟩

/-- Witness for the hypothesis of `sanitizeKey_idem_short_not_general`
at the concrete key `"Example/Key"`. -/
theorem sanitizeKey_idem_short_not_general_witness :
    (gcpTrimmedForm "Example/Key").length ≤ 63 ∧
    sanitizeKeyForGCP (sanitizeKeyForGCP "Example/Key") =
      sanitizeKeyForGCP "Example/Key" :=
  ⟨by decide, sanitizeKey_idem_short_not_general.1 "Example/Key"
    (by decide)⟩

/-- Result discriminator for `Except`-valued functions (Go `err != nil`). -/
def isErr {α : Type} (e : Except String α) : Bool :=
  match e with
  | Except.ok _ => false
  | Except.error _ => true

instance {ε α : Type} [DecidableEq ε] [DecidableEq α] :
    DecidableEq (Except ε α) := fun x y =>
  match x, y with
  | Except.ok a, Except.ok b =>
    if h : a = b then isTrue (by rw [h])
    else isFalse (by intro hc; injection hc; exact h ‹_›)
  | Except.error e, Except.error f =>
    if h : e = f then isTrue (by rw [h])
    else isFalse (by intro hc; injection hc; exact h ‹_›)
  | Except.ok _, Except.error _ => isFalse (by intro hc; cases hc)
  | Except.error _, Except.ok _ => isFalse (by intro hc; cases hc)

/-- Model of Go `strings.Split(s, "/")` on the character list: cut at
every `/`; the empty string yields one empty segment. -/
def splitSlash (l : List Char) : List (List Char) :=
  match l with
  | [] => [[]]
  | c :: rest =>
    if c = '/' then [] :: splitSlash rest
    else
      match splitSlash rest with
      | [] => [[c]]
      | s :: ss => (c :: s) :: ss

/-- `strings.Split(s, "/")` as a list of strings. -/
def goSplitSlash (s : String) : List String :=
  (splitSlash s.data).map String.mk

/-- `parseGCPProviderID` from `controller.go`.  Under the
`strings.HasPrefix` guard, `strings.TrimPrefix(s, "gce://")` drops the
six prefix characters. -/
def parseGCPProviderID (providerID : String) :
    Except String (String × String × String) :=
  if providerID.data.take 6 = "gce://".data then
    let parts := goSplitSlash (String.mk (providerID.data.drop 6))
    if h : parts.length ≥ 3 then
      Except.ok (parts.get ⟨0, by omega⟩, parts.get ⟨1, by omega⟩,
        parts.get ⟨2, by omega⟩)
    else
      Except.error ("invalid GCP provider ID format: " ++ providerID)
  else
    Except.error
      ("providerID missing gce scheme, this might not be a GCE node? "
        ++ providerID)

/-- Model of Go `path.Base`: strip trailing slashes, take the part
after the last remaining slash; `"."` for the empty string, `"/"` for
an all-slash string.  Working on the reversed character list, trailing
slashes are leading, and the last segment is the leading run of
non-slash characters. -/
def goPathBase (p : String) : String :=
  if p.data = [] then "."
  else if p.data.reverse.dropWhile (fun c => c == '/') = [] then "/"
  else
    String.mk (((p.data.reverse.dropWhile (fun c => c == '/')).takeWhile
      (fun c => !(c == '/'))).reverse)

/-- Modelled from the spec: "the instance id is the final path segment
of the provider-identifier string (split on `/`)" — the substring after
the last `/` (empty for an empty string or one ending in `/`). -/
def specFinalSegment (s : String) : String :=
  String.mk ((s.data.reverse.takeWhile (fun c => !(c == '/'))).reverse)

theorem goPathBase_ne_empty (p : String) : goPathBase p ≠ "" := by
  unfold goPathBase
  by_cases h1 : p.data = []
  · rw [if_pos h1]
    decide
  · rw [if_neg h1]
    by_cases h2 : p.data.reverse.dropWhile (fun c => c == '/') = []
    · rw [if_pos h2]
      decide
    · rw [if_neg h2]
      intro hcontra
      have hdata := congrArg String.data hcontra
      cases hd : p.data.reverse.dropWhile (fun c => c == '/') with
      | nil => exact h2 hd
      | cons c cs =>
        have hc : (c == '/') = false := by
          have hh := List.head?_dropWhile_not (fun c => c == '/')
            p.data.reverse
          rw [hd] at hh
          simpa using hh
        rw [string_data_mk, hd] at hdata
        simp [List.takeWhile_cons, hc] at hdata

theorem goPathBase_eq_finalSegment (p : String)
    (h : specFinalSegment p ≠ "") : goPathBase p = specFinalSegment p := by
  cases hrev : p.data.reverse with
  | nil =>
    exfalso
    apply h
    unfold specFinalSegment
    rw [hrev]
    rfl
  | cons c cs =>
    have hc : (c == '/') = false := by
      by_contra hcc
      apply h
      simp only [Bool.not_eq_false, beq_iff_eq] at hcc
      unfold specFinalSegment
      rw [hrev]
      simp [List.takeWhile_cons, hcc]
    have hpne : ¬p.data = [] := by
      intro hp
      rw [hp] at hrev
      cases hrev
    have hdrop : p.data.reverse.dropWhile (fun c => c == '/') =
        p.data.reverse := by
      rw [hrev, List.dropWhile_cons, hc]
      simp
    unfold goPathBase specFinalSegment
    rw [if_neg hpne, hdrop, if_neg (by
      intro hh
      rw [hh] at hrev
      cases hrev)]

/-- The fields of `corev1.Node` read by the controller. -/
structure Node where
  name : String
  labels : StrMap
  annotations : StrMap
  providerID : String
deriving DecidableEq

/-- The configuration fields of `NodeLabelController`. -/
structure Controller where
  cloud : String
  labels : List String
  annotations : List String
deriving DecidableEq

/-- A GCE instance as read by `GetInstance`: its label map and the
optimistic-concurrency fingerprint. -/
structure GCEInstance where
  labels : StrMap
  labelFingerprint : String
deriving DecidableEq

/-- The answers the EC2 SDK would give to the calls `syncAWSTags`
makes: the `DescribeTags` result (or failure), and whether a
`CreateTags` / `DeleteTags` call would fail. -/
structure AWSEnv where
  describe : Except String (List (String × String))
  createErr : Option String
  deleteErr : Option String

/-- The answers the GCE SDK would give to the calls `syncGCPLabels`
makes. -/
structure GCPEnv where
  getInstance : Except String GCEInstance
  setErr : Option String

/-- A remote cloud call issued during a sync pass. -/
inductive CloudCall
  | describeTags (instanceID : String)
  | createTags (instanceID : String) (tags : List (String × String))
  | deleteTags (instanceID : String) (keys : List String)
  | getInstance (project zone name : String)
  | setLabels (project zone name : String) (labels : StrMap)
      (fingerprint : String)
deriving DecidableEq

/-- The per-key comparison inside `shouldProcessNodeUpdate`:
`newExists != oldExists || (newExists && newVal != oldVal)`, with the
Go zero-value defaults for a missing key (or a nil map). -/
def monitoredKeyChanged (oldM newM : StrMap) (k : String) : Bool :=
  let newVal := (StrMap.find newM k).getD ""
  let newExists := (StrMap.find newM k).isSome
  let oldVal := (StrMap.find oldM k).getD ""
  let oldExists := (StrMap.find oldM k).isSome
  (newExists != oldExists) || (newExists && newVal != oldVal)

/-- `shouldProcessNodeUpdate` from `controller.go`; the nil-pointer
guard on the two node arguments is the `Option` match. -/
def shouldProcessNodeUpdate (oldNode newNode : Option Node)
    (monitoredLabels monitoredAnnotations : List String) : Bool :=
  match oldNode, newNode with
  | some o, some n =>
    monitoredLabels.any
      (fun k => monitoredKeyChanged o.labels n.labels k) ||
    monitoredAnnotations.any
      (fun k => monitoredKeyChanged o.annotations n.annotations k)
  | _, _ => false

/-- A key differs between two maps: present on one side only, or
present on both with different values. -/
def KeyDiffers (oldM newM : StrMap) (k : String) : Prop :=
  (StrMap.find oldM k).isSome ≠ (StrMap.find newM k).isSome ∨
  (∃ v w, StrMap.find oldM k = some v ∧ StrMap.find newM k = some w ∧
    v ≠ w)

theorem monitoredKeyChanged_iff (oldM newM : StrMap) (k : String) :
    monitoredKeyChanged oldM newM k = true ↔ KeyDiffers oldM newM k := by
  unfold monitoredKeyChanged KeyDiffers
  cases ho : StrMap.find oldM k with
  | none =>
    cases hn : StrMap.find newM k with
    | none => simp
    | some w => simp
  | some v =>
    cases hn : StrMap.find newM k with
    | none => simp
    | some w =>
      simp only [Option.getD_some, Option.isSome_some, bne_self_eq_false,
        Bool.false_or, Bool.true_and, bne_iff_ne, ne_eq,
        Option.some.injEq]
      constructor
      · intro hne
        exact Or.inr ⟨v, w, rfl, rfl, fun hvw => hne (hvw ▸ rfl)⟩
      · rintro (habs | ⟨v2, w2, hv2, hw2, hne⟩)
        · exact absurd trivial habs
        · subst hv2
          subst hw2
          exact fun hwv => hne (hwv ▸ rfl)

/-- Claim C3: `shouldProcessNodeUpdate` on two non-null nodes is true
iff some monitored label key differs between the label maps or some
monitored annotation key differs between the annotation maps (in
presence, or in value when present on both); hence changes confined to
unmonitored keys never make it true, and a null node always yields
false. -/
theorem shouldProcessNodeUpdate_characterization (o n : Node)
    (L A : List String) :
    (shouldProcessNodeUpdate (some o) (some n) L A = true ↔
      (∃ k ∈ L, KeyDiffers o.labels n.labels k) ∨
      (∃ k ∈ A, KeyDiffers o.annotations n.annotations k)) ∧
    (∀ x, shouldProcessNodeUpdate none x L A = false) ∧
    (∀ x, shouldProcessNodeUpdate x none L A = false) := by
  refine ⟨?_, fun x => rfl, fun x => ?_⟩
  · simp only [shouldProcessNodeUpdate, Bool.or_eq_true,
      List.any_eq_true, monitoredKeyChanged_iff]
  · cases x <;> rfl

/-- `monitoredKeys[k]` from `syncAWSTags`: membership in the
labels-union-annotations key set. -/
def awsMonitored (L A : List String) (k : String) : Bool :=
  L.contains k || A.contains k

/-- The guard `key != "" && monitoredKeys[key]` of the `currentTags`
loop in `syncAWSTags`. -/
def awsKeep (L A : List String) (k : String) : Bool :=
  k != "" && awsMonitored L A k

/-- The `currentTags` map of `syncAWSTags`: the fetched tags filtered
to non-empty monitored keys, poured into a fresh map. -/
def awsCurrentTags (L A : List String)
    (remoteTags : List (String × String)) : StrMap :=
  remoteTags.foldl
    (fun acc p =>
      if awsKeep L A p.1 then StrMap.insert acc p.1 p.2 else acc) []

/-- The `toAdd` batch of `syncAWSTags`: desired entries that are
missing remotely or carry a different remote value. -/
def awsToAdd (desiredTags currentTags : StrMap) :
    List (String × String) :=
  desiredTags.filter
    (fun p => !(StrMap.find currentTags p.1 == some p.2))

/-- The `toDelete` batch of `syncAWSTags`: monitored current keys
absent from the desired state. -/
def awsToDelete (L A : List String) (desiredTags currentTags : StrMap) :
    List String :=
  (currentTags.filter
    (fun p =>
      awsMonitored L A p.1 && !(StrMap.contains desiredTags p.1))).map
    (fun p => p.1)

/-- `syncAWSTags` from `controller.go`, returning the remote calls it
issued; the remote answers come from `env`. -/
def syncAWSTags (r : Controller) (providerID : String)
    (desiredTags : StrMap) (env : AWSEnv) :
    Except String (List CloudCall) :=
  if goPathBase providerID = "" then
    Except.error ("invalid AWS provider ID format: " ++ providerID)
  else
    match env.describe with
    | Except.error e =>
      Except.error ("failed to fetch nodes current AWS tags: " ++ e)
    | Except.ok remoteTags =>
      let currentTags := awsCurrentTags r.labels r.annotations remoteTags
      let toAdd := awsToAdd desiredTags currentTags
      let toDelete :=
        awsToDelete r.labels r.annotations desiredTags currentTags
      if toAdd.length > 0 && env.createErr.isSome then
        Except.error ("failed to create AWS tags: " ++
          env.createErr.getD "")
      else if toDelete.length > 0 && env.deleteErr.isSome then
        Except.error ("failed to delete AWS tags: " ++
          env.deleteErr.getD "")
      else
        Except.ok ([CloudCall.describeTags (goPathBase providerID)] ++
          (if toAdd.length > 0 then
            [CloudCall.createTags (goPathBase providerID) toAdd]
          else []) ++
          (if toDelete.length > 0 then
            [CloudCall.deleteTags (goPathBase providerID) toDelete]
          else []))

/-- The sanitized-to-original lookup `monitoredKeys` of
`syncGCPLabels`, built over `labels ++ annotations` (a later key that
sanitizes to the same string overwrites an earlier one). -/
def gcpMonitoredMap (L A : List String) : StrMap :=
  (L ++ A).foldl
    (fun acc k => StrMap.insert acc (sanitizeKeyForGCP k) k) []

/-- The keep-condition of the removal loop in `syncGCPLabels`: an
entry of the cloned map survives unless its key is a sanitized
monitored key whose original is no longer desired. -/
def gcpKeep (L A : List String) (desiredTags : StrMap) (k : String) :
    Bool :=
  match StrMap.find (gcpMonitoredMap L A) k with
  | some orig => StrMap.contains desiredTags orig
  | none => true

/-- The cloned map after the removal loop of `syncGCPLabels`. -/
def gcpAfterRemove (L A : List String) (desiredTags fetched : StrMap) :
    StrMap :=
  fetched.filter (fun p => gcpKeep L A desiredTags p.1)

/-- The `newLabels` map of `syncGCPLabels`: clone the fetched labels,
drop monitored keys whose original is no longer desired, then write
every desired entry in sanitized form. -/
def gcpNewLabels (L A : List String) (desiredTags fetched : StrMap) :
    StrMap :=
  desiredTags.foldl
    (fun acc p => StrMap.insert acc (sanitizeKeyForGCP p.1)
      (sanitizeValueForGCP p.2))
    (gcpAfterRemove L A desiredTags fetched)

/-- `syncGCPLabels` from `controller.go`, returning the remote calls
it issued; the remote answers come from `env`. -/
def syncGCPLabels (r : Controller) (providerID : String)
    (desiredTags : StrMap) (env : GCPEnv) :
    Except String (List CloudCall) :=
  match parseGCPProviderID providerID with
  | Except.error e =>
    Except.error ("failed to parse GCP provider ID: " ++ e)
  | Except.ok (project, zone, name) =>
    match env.getInstance with
    | Except.error e =>
      Except.error ("failed to get GCP instance: " ++ e)
    | Except.ok inst =>
      let newLabels :=
        gcpNewLabels r.labels r.annotations desiredTags inst.labels
      if StrMap.equalb inst.labels newLabels then
        Except.ok [CloudCall.getInstance project zone name]
      else
        match env.setErr with
        | some e =>
          Except.error ("failed to update GCP instance labels: " ++ e)
        | none =>
          Except.ok [CloudCall.getInstance project zone name,
            CloudCall.setLabels project zone name newLabels
              inst.labelFingerprint]

/-- The `tagsToSync` construction in `Reconcile`: monitored labels
first, then monitored annotations (overwriting an equal key). -/
def buildTagsToSync (L A : List String) (node : Node) : StrMap :=
  let m1 := L.foldl
    (fun acc k =>
      match StrMap.find node.labels k with
      | some v => StrMap.insert acc k v
      | none => acc) []
  A.foldl
    (fun acc k =>
      match StrMap.find node.annotations k with
      | some v => StrMap.insert acc k v
      | none => acc) m1

/-- The remote tag state after the `CreateTags` and `DeleteTags`
batches are applied by EC2 (tags form a map keyed by tag key; a create
upserts, a delete removes the key). -/
def applyAWSMutations (remote : StrMap) (toAdd : List (String × String))
    (toDelete : List String) : StrMap :=
  toDelete.foldl StrMap.erase
    (toAdd.foldl (fun acc p => StrMap.insert acc p.1 p.2) remote)

/-- The outcome of the node fetch at the top of `Reconcile`. -/
inductive GetNodeResult
  | found (node : Node)
  | notFound
  | failed (e : String)

/-- `Reconcile` from `controller.go`: a not-found fetch is a non-error
outcome (`client.IgnoreNotFound`); an empty provider ID is a non-error
no-op; otherwise the switch on `r.Cloud` dispatches the provider sync
(and, having no default branch, silently skips an unknown provider). -/
def Reconcile (r : Controller) (get : GetNodeResult) (awsEnv : AWSEnv)
    (gcpEnv : GCPEnv) : Except String (List CloudCall) :=
  match get with
  | GetNodeResult.failed e => Except.error e
  | GetNodeResult.notFound => Except.ok []
  | GetNodeResult.found node =>
    if node.providerID = "" then Except.ok []
    else
      let tagsToSync := buildTagsToSync r.labels r.annotations node
      if r.cloud = "aws" then
        syncAWSTags r node.providerID tagsToSync awsEnv
      else if r.cloud = "gcp" then
        syncGCPLabels r node.providerID tagsToSync gcpEnv
      else Except.ok []

theorem awsCurrentTags_find (L A : List String)
    (remote : List (String × String)) (k : String) :
    StrMap.find (awsCurrentTags L A remote) k =
      if awsKeep L A k then StrMap.findLast remote k else none := by
  unfold awsCurrentTags
  rw [StrMap.foldl_insert_filter, StrMap.find_foldl_insert,
    StrMap.findLast_filter_key (awsKeep L A) remote k]
  by_cases hq : awsKeep L A k
  · rw [if_pos hq]
    cases StrMap.findLast remote k <;> rfl
  · rw [if_neg hq]
    rfl

theorem awsCurrentTags_nodup (L A : List String)
    (remote : List (String × String)) :
    StrMap.NodupKeys (awsCurrentTags L A remote) := by
  unfold awsCurrentTags
  rw [StrMap.foldl_insert_filter]
  exact StrMap.nodupKeys_foldl_insert _ _ List.nodup_nil

theorem buildTagsToSync_find (L A : List String) (node : Node)
    (k : String) :
    StrMap.find (buildTagsToSync L A node) k =
      match (if A.contains k then StrMap.find node.annotations k
             else none) with
      | some v => some v
      | none =>
        if L.contains k then StrMap.find node.labels k else none := by
  unfold buildTagsToSync
  rw [StrMap.find_foldl_insert_lookup, StrMap.find_foldl_insert_lookup]
  by_cases hA : A.contains k
  · rw [if_pos hA, if_pos hA]
    cases StrMap.find node.annotations k with
    | some v => rfl
    | none =>
      by_cases hL : L.contains k
      · rw [if_pos hL, if_pos hL]
        cases StrMap.find node.labels k <;> rfl
      · rw [if_neg hL, if_neg hL]
        rfl
  · rw [if_neg hA, if_neg hA]
    by_cases hL : L.contains k
    · rw [if_pos hL, if_pos hL]
      cases StrMap.find node.labels k <;> rfl
    · rw [if_neg hL, if_neg hL]
      rfl

theorem buildTagsToSync_nodup (L A : List String) (node : Node) :
    StrMap.NodupKeys (buildTagsToSync L A node) := by
  unfold buildTagsToSync
  exact StrMap.nodupKeys_foldl_insert_lookup _ _ _
    (StrMap.nodupKeys_foldl_insert_lookup _ _ _ List.nodup_nil)

theorem buildTagsToSync_keys_monitored (L A : List String)
    (node : Node) (k v : String)
    (h : StrMap.find (buildTagsToSync L A node) k = some v) :
    awsMonitored L A k = true := by
  rw [buildTagsToSync_find] at h
  unfold awsMonitored
  by_cases hA : A.contains k
  · rw [hA, Bool.or_true]
  · by_cases hL : L.contains k
    · rw [hL, Bool.true_or]
    · rw [if_neg hA, if_neg hL] at h
      cases h

theorem applyAWSMutations_find (remote : StrMap)
    (toAdd : List (String × String)) (toDelete : List String)
    (k : String) :
    StrMap.find (applyAWSMutations remote toAdd toDelete) k =
      if toDelete.contains k then none
      else
        match StrMap.findLast toAdd k with
        | some v => some v
        | none => StrMap.find remote k := by
  unfold applyAWSMutations
  rw [StrMap.find_foldl_erase, StrMap.find_foldl_insert]

theorem list_getD_eq_get {α : Type} (l : List α) (i : Nat) (d : α)
    (h : i < l.length) : l.getD i d = l.get ⟨i, h⟩ := by
  simp [List.getD_eq_getElem?_getD, List.getElem?_eq_getElem h]

theorem nodupKeys_foldl_erase (dels : List String) (m : StrMap)
    (h : StrMap.NodupKeys m) :
    StrMap.NodupKeys (dels.foldl StrMap.erase m) := by
  induction dels generalizing m with
  | nil => exact h
  | cons d dels ih =>
    exact ih _ (StrMap.nodupKeys_erase m d h)

theorem applyAWSMutations_nodup (remote : StrMap)
    (toAdd : List (String × String)) (toDelete : List String)
    (h : StrMap.NodupKeys remote) :
    StrMap.NodupKeys (applyAWSMutations remote toAdd toDelete) := by
  unfold applyAWSMutations
  exact nodupKeys_foldl_erase _ _
    (StrMap.nodupKeys_foldl_insert toAdd remote h)

theorem gcpNewLabels_eq_plain_foldl (L A : List String)
    (desired fetched : StrMap) :
    gcpNewLabels L A desired fetched =
      (desired.map (fun p =>
        (sanitizeKeyForGCP p.1, sanitizeValueForGCP p.2))).foldl
        (fun acc p => StrMap.insert acc p.1 p.2)
        (gcpAfterRemove L A desired fetched) :=
  (List.foldl_map
    (fun p : String × String =>
      (sanitizeKeyForGCP p.1, sanitizeValueForGCP p.2))
    (fun acc p => StrMap.insert acc p.1 p.2) desired
    (gcpAfterRemove L A desired fetched)).symm

theorem gcpNewLabels_find (L A : List String)
    (desired fetched : StrMap) (k : String) :
    StrMap.find (gcpNewLabels L A desired fetched) k =
      match StrMap.findLast (desired.map (fun p =>
          (sanitizeKeyForGCP p.1, sanitizeValueForGCP p.2))) k with
      | some v => some v
      | none =>
        if gcpKeep L A desired k then StrMap.find fetched k
        else none := by
  rw [gcpNewLabels_eq_plain_foldl, StrMap.find_foldl_insert]
  cases StrMap.findLast (desired.map (fun p =>
      (sanitizeKeyForGCP p.1, sanitizeValueForGCP p.2))) k with
  | some v => rfl
  | none =>
    show StrMap.find (gcpAfterRemove L A desired fetched) k = _
    unfold gcpAfterRemove
    rw [StrMap.find_filter_key]

theorem gcpNewLabels_nodup (L A : List String)
    (desired fetched : StrMap) (h : StrMap.NodupKeys fetched) :
    StrMap.NodupKeys (gcpNewLabels L A desired fetched) := by
  rw [gcpNewLabels_eq_plain_foldl]
  exact StrMap.nodupKeys_foldl_insert _ _
    (StrMap.nodupKeys_filter _ fetched h)

theorem gcpMonitoredMap_find (L A : List String) (k : String) :
    StrMap.find (gcpMonitoredMap L A) k =
      StrMap.findLast ((L ++ A).map
        (fun kk => (sanitizeKeyForGCP kk, kk))) k := by
  unfold gcpMonitoredMap
  rw [show ((L ++ A).foldl
      (fun acc kk => StrMap.insert acc (sanitizeKeyForGCP kk) kk) []) =
      (((L ++ A).map (fun kk => (sanitizeKeyForGCP kk, kk))).foldl
        (fun acc p => StrMap.insert acc p.1 p.2) []) from
    (List.foldl_map (fun kk => (sanitizeKeyForGCP kk, kk))
      (fun acc p => StrMap.insert acc p.1 p.2) (L ++ A) []).symm]
  rw [StrMap.find_foldl_insert]
  cases StrMap.findLast ((L ++ A).map
      (fun kk => (sanitizeKeyForGCP kk, kk))) k <;> rfl

/-- Any monitored key's sanitized form is a key of the
sanitized-to-original lookup map. -/
theorem gcpMonitored_contains_sanitized (L A : List String)
    (dk : String) (h : awsMonitored L A dk = true) :
    StrMap.contains (gcpMonitoredMap L A) (sanitizeKeyForGCP dk) =
      true := by
  have hdk : dk ∈ L ++ A := by
    simp only [awsMonitored, Bool.or_eq_true] at h
    rw [List.mem_append]
    rcases h with h | h
    · exact Or.inl (by simpa using h)
    · exact Or.inr (by simpa using h)
  unfold StrMap.contains
  rw [gcpMonitoredMap_find]
  cases hf : StrMap.findLast ((L ++ A).map
      (fun kk => (sanitizeKeyForGCP kk, kk))) (sanitizeKeyForGCP dk)
    with
  | some v => rfl
  | none =>
    rw [StrMap.findLast_eq_none_iff] at hf
    exact absurd rfl (hf (sanitizeKeyForGCP dk, dk)
      (List.mem_map.mpr ⟨dk, hdk, rfl⟩))

theorem awsToAdd_eq_nil_iff (desired current : StrMap) :
    awsToAdd desired current = [] ↔
      ∀ p ∈ desired, StrMap.find current p.1 = some p.2 := by
  unfold awsToAdd
  rw [List.filter_eq_nil_iff]
  constructor
  · intro h p hp
    have := h p hp
    simpa using this
  · intro h p hp
    simp [h p hp]

theorem awsToDelete_eq_nil_iff (L A : List String)
    (desired current : StrMap) :
    awsToDelete L A desired current = [] ↔
      ∀ p ∈ current, ¬(awsMonitored L A p.1 = true ∧
        StrMap.contains desired p.1 = false) := by
  unfold awsToDelete
  rw [List.map_eq_nil_iff, List.filter_eq_nil_iff]
  constructor
  · intro h p hp
    have := h p hp
    simpa [Bool.and_eq_true, Bool.not_eq_true'] using this
  · intro h p hp
    have := h p hp
    simpa [Bool.and_eq_true, Bool.not_eq_true'] using this

/-- After one AWS pass is applied to the remote state, the desired
entries are all present remotely and no stale monitored keys remain,
so the second pass computes empty batches. -/
theorem aws_second_pass_empty (L A : List String)
    (desired remote : StrMap)
    (hnd : StrMap.NodupKeys desired) (hnr : StrMap.NodupKeys remote)
    (hmon : ∀ p ∈ desired, awsMonitored L A p.1 = true ∧ p.1 ≠ "") :
    awsToAdd desired (awsCurrentTags L A (applyAWSMutations remote
      (awsToAdd desired (awsCurrentTags L A remote))
      (awsToDelete L A desired (awsCurrentTags L A remote)))) = [] ∧
    awsToDelete L A desired (awsCurrentTags L A (applyAWSMutations
      remote (awsToAdd desired (awsCurrentTags L A remote))
      (awsToDelete L A desired (awsCurrentTags L A remote)))) = [] := by
  have hnd_toAdd : StrMap.NodupKeys
      (awsToAdd desired (awsCurrentTags L A remote)) :=
    StrMap.nodupKeys_filter _ desired hnd
  have hnr2 : StrMap.NodupKeys (applyAWSMutations remote
      (awsToAdd desired (awsCurrentTags L A remote))
      (awsToDelete L A desired (awsCurrentTags L A remote))) :=
    applyAWSMutations_nodup _ _ _ hnr
  have hcur_find : ∀ kk, StrMap.find (awsCurrentTags L A remote) kk =
      if awsKeep L A kk then StrMap.find remote kk else none := by
    intro kk
    rw [awsCurrentTags_find,
      StrMap.findLast_eq_find_of_nodup remote kk hnr]
  have hcur2_find : ∀ kk,
      StrMap.find (awsCurrentTags L A (applyAWSMutations remote
        (awsToAdd desired (awsCurrentTags L A remote))
        (awsToDelete L A desired (awsCurrentTags L A remote)))) kk =
      if awsKeep L A kk then
        StrMap.find (applyAWSMutations remote
          (awsToAdd desired (awsCurrentTags L A remote))
          (awsToDelete L A desired (awsCurrentTags L A remote))) kk
      else none := by
    intro kk
    rw [awsCurrentTags_find,
      StrMap.findLast_eq_find_of_nodup _ kk hnr2]
  have htoDel_not_desired : ∀ kk,
      kk ∈ awsToDelete L A desired (awsCurrentTags L A remote) →
      StrMap.contains desired kk = false := by
    intro kk hk
    unfold awsToDelete at hk
    obtain ⟨p, hp, hpk⟩ := List.mem_map.mp hk
    obtain ⟨hpc, hcond⟩ := List.mem_filter.mp hp
    simp only [Bool.and_eq_true, Bool.not_eq_true'] at hcond
    exact hpk ▸ hcond.2
  have htoAdd_sub : ∀ p,
      p ∈ awsToAdd desired (awsCurrentTags L A remote) →
      p ∈ desired :=
    fun p hp => (List.mem_filter.mp hp).1
  have hkeep_of_mem : ∀ p ∈ desired, awsKeep L A p.1 = true := by
    intro p hp
    obtain ⟨hm, hne⟩ := hmon p hp
    simp [awsKeep, hm, hne]
  have hpost : ∀ p ∈ desired,
      StrMap.find (applyAWSMutations remote
        (awsToAdd desired (awsCurrentTags L A remote))
        (awsToDelete L A desired (awsCurrentTags L A remote))) p.1 =
      some p.2 := by
    intro p hp
    have hfd : StrMap.find desired p.1 = some p.2 :=
      StrMap.find_eq_some_of_mem desired p hnd hp
    have hdel_false : (awsToDelete L A desired
        (awsCurrentTags L A remote)).contains p.1 = false := by
      cases hhh : (awsToDelete L A desired
          (awsCurrentTags L A remote)).contains p.1 with
      | false => rfl
      | true =>
        have hmem : p.1 ∈ awsToDelete L A desired
            (awsCurrentTags L A remote) := List.elem_iff.mp hhh
        have hc2 := htoDel_not_desired p.1 hmem
        unfold StrMap.contains at hc2
        rw [hfd] at hc2
        exact Bool.noConfusion hc2
    rw [applyAWSMutations_find,
      if_neg (by rw [hdel_false]; exact Bool.false_ne_true)]
    have hfl : StrMap.findLast (awsToAdd desired
        (awsCurrentTags L A remote)) p.1 =
        StrMap.find (awsToAdd desired (awsCurrentTags L A remote))
          p.1 :=
      StrMap.findLast_eq_find_of_nodup _ _ hnd_toAdd
    by_cases hc : StrMap.find (awsCurrentTags L A remote) p.1 =
        some p.2
    · have hnotin : StrMap.find (awsToAdd desired
          (awsCurrentTags L A remote)) p.1 = none := by
        cases hfa : StrMap.find (awsToAdd desired
            (awsCurrentTags L A remote)) p.1 with
        | none => rfl
        | some w =>
          have hmem := StrMap.mem_of_find_eq_some _ _ _ hfa
          have hw : (p.1, w) ∈ desired := htoAdd_sub _ hmem
          have hww : StrMap.find desired p.1 = some w :=
            StrMap.find_eq_some_of_mem desired (p.1, w) hnd hw
          rw [hfd] at hww
          injection hww with hv
          obtain ⟨_, hcond⟩ := List.mem_filter.mp hmem
          rw [← hv] at hcond
          simp [hc] at hcond
      rw [hfl, hnotin]
      rw [hcur_find p.1, if_pos (hkeep_of_mem p hp)] at hc
      exact hc
    · have hm2 : p ∈ awsToAdd desired (awsCurrentTags L A remote) :=
        List.mem_filter.mpr ⟨hp, by simp [hc]⟩
      have hfa : StrMap.find (awsToAdd desired
          (awsCurrentTags L A remote)) p.1 = some p.2 :=
        StrMap.find_eq_some_of_mem _ p hnd_toAdd hm2
      rw [hfl, hfa]
  constructor
  · rw [awsToAdd_eq_nil_iff]
    intro p hp
    rw [hcur2_find p.1, if_pos (hkeep_of_mem p hp)]
    exact hpost p hp
  · rw [awsToDelete_eq_nil_iff]
    intro p hp hcond
    obtain ⟨hmonp, hcont⟩ := hcond
    have hfind2 : StrMap.find (awsCurrentTags L A (applyAWSMutations
        remote (awsToAdd desired (awsCurrentTags L A remote))
        (awsToDelete L A desired (awsCurrentTags L A remote)))) p.1 =
        some p.2 :=
      StrMap.find_eq_some_of_mem _ p (awsCurrentTags_nodup _ _ _) hp
    rw [hcur2_find p.1] at hfind2
    by_cases hkeep : awsKeep L A p.1
    · rw [if_pos hkeep] at hfind2
      rw [applyAWSMutations_find] at hfind2
      by_cases hdel : (awsToDelete L A desired
          (awsCurrentTags L A remote)).contains p.1 = true
      · rw [if_pos hdel] at hfind2
        cases hfind2
      · rw [if_neg hdel] at hfind2
        cases hfl : StrMap.findLast (awsToAdd desired
            (awsCurrentTags L A remote)) p.1 with
        | some w =>
          have hmem := StrMap.mem_of_findLast_eq_some _ _ _ hfl
          have hw : (p.1, w) ∈ desired := htoAdd_sub _ hmem
          have hww : StrMap.find desired p.1 = some w :=
            StrMap.find_eq_some_of_mem desired (p.1, w) hnd hw
          unfold StrMap.contains at hcont
          rw [hww] at hcont
          exact Bool.noConfusion hcont
        | none =>
          rw [hfl] at hfind2
          have hcfind : StrMap.find (awsCurrentTags L A remote) p.1 =
              some p.2 := by
            rw [hcur_find p.1, if_pos hkeep]
            exact hfind2
          have hcm : (p.1, p.2) ∈ awsCurrentTags L A remote :=
            StrMap.mem_of_find_eq_some _ _ _ hcfind
          apply hdel
          have hmemdel : p.1 ∈ awsToDelete L A desired
              (awsCurrentTags L A remote) := by
            unfold awsToDelete
            refine List.mem_map.mpr ⟨(p.1, p.2), ?_, rfl⟩
            refine List.mem_filter.mpr ⟨hcm, ?_⟩
            simp [hmonp, hcont]
          exact List.elem_iff.mpr hmemdel
    · rw [if_neg hkeep] at hfind2
      cases hfind2

theorem gcpNewLabels_idem (L A : List String)
    (desired fetched : StrMap) (k : String) :
    StrMap.find (gcpNewLabels L A desired
      (gcpNewLabels L A desired fetched)) k =
      StrMap.find (gcpNewLabels L A desired fetched) k := by
  rw [gcpNewLabels_find L A desired
    (gcpNewLabels L A desired fetched) k]
  cases hd : StrMap.findLast (desired.map (fun p =>
      (sanitizeKeyForGCP p.1, sanitizeValueForGCP p.2))) k with
  | some v =>
    rw [gcpNewLabels_find L A desired fetched k, hd]
  | none =>
    by_cases hk : gcpKeep L A desired k
    · rw [if_pos hk]
    · rw [if_neg hk, gcpNewLabels_find L A desired fetched k, hd,
        if_neg hk]

/-- Claim C5: the GCP identifier parser succeeds iff the string starts
with `gce://` and the remainder splits on `/` into at least three
segments; on success it returns the first three segments (project,
zone, instance name) and ignores the rest; a missing prefix (including
the empty string) or fewer than three segments yields an error. -/
theorem parseGCP_characterization :
    (∀ s, isErr (parseGCPProviderID s) = false ↔
      (s.data.take 6 = "gce://".data ∧
        3 ≤ (goSplitSlash (String.mk (s.data.drop 6))).length)) ∧
    (∀ s p z n, parseGCPProviderID s = Except.ok (p, z, n) →
      s.data.take 6 = "gce://".data ∧
      p = (goSplitSlash (String.mk (s.data.drop 6))).getD 0 "" ∧
      z = (goSplitSlash (String.mk (s.data.drop 6))).getD 1 "" ∧
      n = (goSplitSlash (String.mk (s.data.drop 6))).getD 2 "") ∧
    parseGCPProviderID "gce://my-project/us-central1-a/instance-1" =
      Except.ok ("my-project", "us-central1-a", "instance-1") ∧
    parseGCPProviderID
        "gce://my-project/us-central1-a/instance-1/extra/parts" =
      Except.ok ("my-project", "us-central1-a", "instance-1") ∧
    isErr (parseGCPProviderID "gce://my-project/us-central1-a") =
      true ∧
    isErr (parseGCPProviderID "") = true ∧
    isErr (parseGCPProviderID
      "invalid://my-project/us-central1-a/instance-1") = true := by
  refine ⟨fun s => ?_, fun s p z n hok => ?_, by decide, by decide,
    by decide, by decide, by decide⟩
  · unfold parseGCPProviderID
    by_cases h1 : s.data.take 6 = "gce://".data
    · rw [if_pos h1]
      by_cases h2 :
          (goSplitSlash (String.mk (s.data.drop 6))).length ≥ 3
      · rw [dif_pos h2]
        simp [isErr, h1, h2]
      · rw [dif_neg h2]
        simp [isErr, h1, h2]
    · rw [if_neg h1]
      simp [isErr, h1]
  · unfold parseGCPProviderID at hok
    by_cases h1 : s.data.take 6 = "gce://".data
    · rw [if_pos h1] at hok
      by_cases h2 :
          (goSplitSlash (String.mk (s.data.drop 6))).length ≥ 3
      · rw [dif_pos h2] at hok
        injection hok with hok
        simp only [Prod.mk.injEq] at hok
        obtain ⟨hp, hz, hn⟩ := hok
        refine ⟨h1, ?_, ?_, ?_⟩
        · rw [list_getD_eq_get _ 0 "" (by omega)]
          exact hp.symm
        · rw [list_getD_eq_get _ 1 "" (by omega)]
          exact hz.symm
        · rw [list_getD_eq_get _ 2 "" (by omega)]
          exact hn.symm
      · rw [dif_neg h2] at hok
        cases hok
    · rw [if_neg h1] at hok
      cases hok

/-- Witness for `parseGCP_characterization` at a concrete provider
identifier. -/
theorem parseGCP_characterization_witness :
    parseGCPProviderID "gce://p/z/i" = Except.ok ("p", "z", "i") ∧
    (("gce://p/z/i" : String).data.take 6 = "gce://".data ∧
      "p" = (goSplitSlash (String.mk
        (("gce://p/z/i" : String).data.drop 6))).getD 0 "" ∧
      "z" = (goSplitSlash (String.mk
        (("gce://p/z/i" : String).data.drop 6))).getD 1 "" ∧
      "i" = (goSplitSlash (String.mk
        (("gce://p/z/i" : String).data.drop 6))).getD 2 "") :=
  ⟨by decide, parseGCP_characterization.2.1 "gce://p/z/i" "p" "z" "i"
    (by decide)⟩

/-- Claim C6 counterexample: on the empty provider identifier the
final path segment is empty, yet the tag sync neither fails nor stops
before the remote call — `path.Base` turns the empty string into `"."`
and the describe call is issued with that id. -/
theorem awsInstanceID_counterexample :
    specFinalSegment "" = "" ∧
    syncAWSTags ⟨"aws", ["env"], []⟩ "" [] ⟨Except.ok [], none, none⟩ =
      Except.ok [CloudCall.describeTags "."] :=
  ⟨rfl, by decide⟩

/-- Claim C6 amended: the instance id used for the remote calls is
`path.Base` of the provider identifier, which equals the final path
segment whenever that segment is non-empty; `path.Base` never returns
the empty string, so the `invalid AWS provider ID format` branch is
unreachable and a sync against a healthy remote succeeds for every
provider identifier. -/
theorem awsInstanceID_amended (pid : String) (r : Controller)
    (desired : StrMap) (remote : List (String × String)) :
    goPathBase pid ≠ "" ∧
    (specFinalSegment pid ≠ "" →
      goPathBase pid = specFinalSegment pid) ∧
    isErr (syncAWSTags r pid desired ⟨Except.ok remote, none, none⟩) =
      false := by
  refine ⟨goPathBase_ne_empty pid, goPathBase_eq_finalSegment pid, ?_⟩
  unfold syncAWSTags
  rw [if_neg (goPathBase_ne_empty pid)]
  simp [isErr]

/-- Witness for `awsInstanceID_amended` at a realistic provider
identifier. -/
theorem awsInstanceID_amended_witness :
    goPathBase "aws:///us-west-2a/i-0abc" ≠ "" ∧
    specFinalSegment "aws:///us-west-2a/i-0abc" ≠ "" ∧
    goPathBase "aws:///us-west-2a/i-0abc" =
      specFinalSegment "aws:///us-west-2a/i-0abc" ∧
    isErr (syncAWSTags ⟨"aws", ["env"], []⟩ "aws:///us-west-2a/i-0abc"
      [("env", "prod")] ⟨Except.ok [], none, none⟩) = false := by
  have h := awsInstanceID_amended "aws:///us-west-2a/i-0abc"
    ⟨"aws", ["env"], []⟩ [("env", "prod")] []
  exact ⟨h.1, by decide, h.2.1 (by decide), h.2.2⟩

/-- Claim C7: `Reconcile` treats a not-found fetch as a non-error
completed outcome, an empty provider identifier as a non-error no-op
with no cloud calls, surfaces a failed fetch as its error, and
otherwise returns exactly the dispatched provider sync result — so it
errs precisely when the fetch fails (other than not-found) or the
dispatched sync errs, and every sync error is propagated unchanged. -/
theorem reconcile_outcomes (r : Controller) (e : String) (a : AWSEnv)
    (g : GCPEnv) :
    Reconcile r GetNodeResult.notFound a g = Except.ok [] ∧
    (∀ nm ls ans,
      Reconcile r (GetNodeResult.found ⟨nm, ls, ans, ""⟩) a g =
        Except.ok []) ∧
    Reconcile r (GetNodeResult.failed e) a g = Except.error e ∧
    (∀ L A node, node.providerID ≠ "" →
      Reconcile ⟨"aws", L, A⟩ (GetNodeResult.found node) a g =
        syncAWSTags ⟨"aws", L, A⟩ node.providerID
          (buildTagsToSync L A node) a) ∧
    (∀ L A node, node.providerID ≠ "" →
      Reconcile ⟨"gcp", L, A⟩ (GetNodeResult.found node) a g =
        syncGCPLabels ⟨"gcp", L, A⟩ node.providerID
          (buildTagsToSync L A node) g) := by
  refine ⟨rfl, fun nm ls ans => rfl, rfl, fun L A node h => ?_,
    fun L A node h => ?_⟩
  · simp only [Reconcile]
    rw [if_neg h]
    simp
  · simp only [Reconcile]
    rw [if_neg h]
    simp

/-- Witness for `reconcile_outcomes` at concrete controllers, nodes
and environments. -/
theorem reconcile_outcomes_witness :
    Reconcile ⟨"aws", ["env"], []⟩ GetNodeResult.notFound
      ⟨Except.ok [], none, none⟩ ⟨Except.error "x", none⟩ =
      Except.ok [] ∧
    Reconcile ⟨"aws", ["env"], []⟩
      (GetNodeResult.found ⟨"n", [("env", "prod")], [], ""⟩)
      ⟨Except.ok [], none, none⟩ ⟨Except.error "x", none⟩ =
      Except.ok [] ∧
    Reconcile ⟨"aws", ["env"], []⟩ (GetNodeResult.failed "boom")
      ⟨Except.ok [], none, none⟩ ⟨Except.error "x", none⟩ =
      Except.error "boom" ∧
    Reconcile ⟨"aws", ["env"], []⟩
      (GetNodeResult.found ⟨"n", [("env", "prod")], [], "aws:///i-1"⟩)
      ⟨Except.ok [], none, none⟩ ⟨Except.error "x", none⟩ =
      syncAWSTags ⟨"aws", ["env"], []⟩ "aws:///i-1"
        (buildTagsToSync ["env"] []
          ⟨"n", [("env", "prod")], [], "aws:///i-1"⟩)
        ⟨Except.ok [], none, none⟩ ∧
    Reconcile ⟨"gcp", ["env"], []⟩
      (GetNodeResult.found ⟨"n", [("env", "prod")], [], "gce://p/z/i"⟩)
      ⟨Except.ok [], none, none⟩ ⟨Except.error "x", none⟩ =
      syncGCPLabels ⟨"gcp", ["env"], []⟩ "gce://p/z/i"
        (buildTagsToSync ["env"] []
          ⟨"n", [("env", "prod")], [], "gce://p/z/i"⟩)
        ⟨Except.error "x", none⟩ := by
  have h := reconcile_outcomes ⟨"aws", ["env"], []⟩ "boom"
    ⟨Except.ok [], none, none⟩ ⟨Except.error "x", none⟩
  have h2 := reconcile_outcomes ⟨"gcp", ["env"], []⟩ "boom"
    ⟨Except.ok [], none, none⟩ ⟨Except.error "x", none⟩
  exact ⟨h.1, h.2.1 "n" [("env", "prod")] [], h.2.2.1,
    h.2.2.2.1 ["env"] [] _ (by decide),
    h2.2.2.2.2 ["env"] [] _ (by decide)⟩

/-- Claim C9: with a configured cloud provider other than `aws` or
`gcp`, the provider switch (which has no default branch) silently
skips the sync — `Reconcile` contacts no cloud client and returns a
nil error even for a node with a non-empty provider identifier. -/
theorem reconcile_unknown_cloud_skips (c : String) (L A : List String)
    (node : Node) (a : AWSEnv) (g : GCPEnv)
    (h1 : c ≠ "aws") (h2 : c ≠ "gcp") (h3 : node.providerID ≠ "") :
    Reconcile ⟨c, L, A⟩ (GetNodeResult.found node) a g =
      Except.ok [] := by
  simp only [Reconcile]
  rw [if_neg h3, if_neg h1, if_neg h2]

/-- Witness for `reconcile_unknown_cloud_skips`: an `azure` controller
whose cloud environments would fail every call still reconciles to a
silent no-op. -/
theorem reconcile_unknown_cloud_skips_witness :
    Reconcile ⟨"azure", ["env"], []⟩
      (GetNodeResult.found ⟨"n", [("env", "prod")], [], "aws:///i-1"⟩)
      ⟨Except.error "boom", some "boom", some "boom"⟩
      ⟨Except.error "boom", some "boom"⟩ = Except.ok [] :=
  reconcile_unknown_cloud_skips "azure" ["env"] []
    ⟨"n", [("env", "prod")], [], "aws:///i-1"⟩
    ⟨Except.error "boom", some "boom", some "boom"⟩
    ⟨Except.error "boom", some "boom"⟩
    (by decide) (by decide) (by decide)

/-- Claim C1: in a reconciliation pass (desired state built by
`Reconcile` from the monitored label and annotation lists), both
strategies mutate only members of the Monitored Key Set: every AWS
`toAdd` or `toDelete` key is monitored and applying the batches leaves
every unmonitored remote key at its fetched value; on GCP, keys
outside the sanitized monitored set keep their fetched values, and any
key whose value in the new label map differs from the fetched map is a
sanitized monitored key. -/
theorem sync_monitored_frame (L A : List String) (node : Node)
    (remote fetched : StrMap) (k : String) :
    (∀ p ∈ awsToAdd (buildTagsToSync L A node)
        (awsCurrentTags L A remote), awsMonitored L A p.1 = true) ∧
    (∀ kk ∈ awsToDelete L A (buildTagsToSync L A node)
        (awsCurrentTags L A remote), awsMonitored L A kk = true) ∧
    (awsMonitored L A k = false →
      StrMap.find (applyAWSMutations remote
        (awsToAdd (buildTagsToSync L A node)
          (awsCurrentTags L A remote))
        (awsToDelete L A (buildTagsToSync L A node)
          (awsCurrentTags L A remote))) k = StrMap.find remote k) ∧
    (StrMap.contains (gcpMonitoredMap L A) k = false →
      StrMap.find (gcpNewLabels L A (buildTagsToSync L A node)
        fetched) k = StrMap.find fetched k) ∧
    (StrMap.find (gcpNewLabels L A (buildTagsToSync L A node) fetched)
        k ≠ StrMap.find fetched k →
      StrMap.contains (gcpMonitoredMap L A) k = true) := by
  have h1 : ∀ p ∈ awsToAdd (buildTagsToSync L A node)
      (awsCurrentTags L A remote), awsMonitored L A p.1 = true := by
    intro p hp
    unfold awsToAdd at hp
    have hmem := (List.mem_filter.mp hp).1
    exact buildTagsToSync_keys_monitored L A node p.1 p.2
      (StrMap.find_eq_some_of_mem _ p (buildTagsToSync_nodup L A node)
        hmem)
  have h2 : ∀ kk ∈ awsToDelete L A (buildTagsToSync L A node)
      (awsCurrentTags L A remote), awsMonitored L A kk = true := by
    intro kk hk
    unfold awsToDelete at hk
    obtain ⟨p, hp, hpk⟩ := List.mem_map.mp hk
    obtain ⟨_, hcond⟩ := List.mem_filter.mp hp
    simp only [Bool.and_eq_true] at hcond
    exact hpk ▸ hcond.1
  have h4 : StrMap.contains (gcpMonitoredMap L A) k = false →
      StrMap.find (gcpNewLabels L A (buildTagsToSync L A node)
        fetched) k = StrMap.find fetched k := by
    intro hum
    rw [gcpNewLabels_find]
    have hfl : StrMap.findLast ((buildTagsToSync L A node).map
        (fun p => (sanitizeKeyForGCP p.1, sanitizeValueForGCP p.2)))
        k = none := by
      cases hfl2 : StrMap.findLast ((buildTagsToSync L A node).map
          (fun p =>
            (sanitizeKeyForGCP p.1, sanitizeValueForGCP p.2))) k with
      | none => rfl
      | some v =>
        have hmem := StrMap.mem_of_findLast_eq_some _ _ _ hfl2
        obtain ⟨q, hq, hqe⟩ := List.mem_map.mp hmem
        have hq1 : sanitizeKeyForGCP q.1 = k := congrArg Prod.fst hqe
        have hmq := buildTagsToSync_keys_monitored L A node q.1 q.2
          (StrMap.find_eq_some_of_mem _ q
            (buildTagsToSync_nodup L A node) hq)
        have hcs := gcpMonitored_contains_sanitized L A q.1 hmq
        rw [hq1, hum] at hcs
        exact Bool.noConfusion hcs
    rw [hfl]
    have hkeep : gcpKeep L A (buildTagsToSync L A node) k = true := by
      unfold gcpKeep
      unfold StrMap.contains at hum
      cases hf : StrMap.find (gcpMonitoredMap L A) k with
      | none => rfl
      | some orig =>
        rw [hf] at hum
        exact Bool.noConfusion hum
    show (if gcpKeep L A (buildTagsToSync L A node) k then
      StrMap.find fetched k else none) = StrMap.find fetched k
    rw [if_pos hkeep]
  refine ⟨h1, h2, ?_, h4, ?_⟩
  · intro hum
    rw [applyAWSMutations_find]
    have hdel : (awsToDelete L A (buildTagsToSync L A node)
        (awsCurrentTags L A remote)).contains k = false := by
      cases hhh : (awsToDelete L A (buildTagsToSync L A node)
          (awsCurrentTags L A remote)).contains k with
      | false => rfl
      | true =>
        have hmm2 := h2 k (List.elem_iff.mp hhh)
        rw [hum] at hmm2
        exact Bool.noConfusion hmm2
    rw [if_neg (by rw [hdel]; exact Bool.false_ne_true)]
    cases hfl : StrMap.findLast (awsToAdd (buildTagsToSync L A node)
        (awsCurrentTags L A remote)) k with
    | some v =>
      have hmem := StrMap.mem_of_findLast_eq_some _ _ _ hfl
      have hmm2 := h1 _ hmem
      rw [hum] at hmm2
      exact Bool.noConfusion hmm2
    | none => rfl
  · intro hne
    cases hcm : StrMap.contains (gcpMonitoredMap L A) k with
    | true => rfl
    | false => exact absurd (h4 hcm) hne

/-- Witness for `sync_monitored_frame` at a concrete pass: the
unmonitored remote key `cost-center` survives both strategies with its
fetched value. -/
theorem sync_monitored_frame_witness :
    awsMonitored ["env"] [] "cost-center" = false ∧
    StrMap.find (applyAWSMutations
      [("env", "staging"), ("cost-center", "1")]
      (awsToAdd (buildTagsToSync ["env"] []
          ⟨"n", [("env", "prod")], [], "x"⟩)
        (awsCurrentTags ["env"] []
          [("env", "staging"), ("cost-center", "1")]))
      (awsToDelete ["env"] [] (buildTagsToSync ["env"] []
          ⟨"n", [("env", "prod")], [], "x"⟩)
        (awsCurrentTags ["env"] []
          [("env", "staging"), ("cost-center", "1")])))
      "cost-center" =
      StrMap.find [("env", "staging"), ("cost-center", "1")]
        "cost-center" ∧
    StrMap.find (gcpNewLabels ["env"] [] (buildTagsToSync ["env"] []
        ⟨"n", [("env", "prod")], [], "x"⟩)
      [("env", "staging"), ("cost-center", "1")]) "cost-center" =
      StrMap.find [("env", "staging"), ("cost-center", "1")]
        "cost-center" := by
  have h := sync_monitored_frame ["env"] []
    ⟨"n", [("env", "prod")], [], "x"⟩
    [("env", "staging"), ("cost-center", "1")]
    [("env", "staging"), ("cost-center", "1")] "cost-center"
  exact ⟨by decide, h.2.2.1 (by decide), h.2.2.2.1 (by decide)⟩

/-- Claim C2 counterexample: with monitored labels `["env"]` but a
desired state holding the unmonitored key `x` (never produced by
`Reconcile`, but allowed by the claim's "every desired state"), the
AWS strategy is not idempotent: after the first pass's create batch is
applied, the second pass recomputes the same non-empty `toAdd` batch
and issues another create call. -/
theorem sync_idempotent_counterexample :
    awsToAdd [("x", "1")] (awsCurrentTags ["env"] [] []) =
      [("x", "1")] ∧
    applyAWSMutations []
      (awsToAdd [("x", "1")] (awsCurrentTags ["env"] [] []))
      (awsToDelete ["env"] [] [("x", "1")]
        (awsCurrentTags ["env"] [] [])) = [("x", "1")] ∧
    awsToAdd [("x", "1")] (awsCurrentTags ["env"] []
      (applyAWSMutations []
        (awsToAdd [("x", "1")] (awsCurrentTags ["env"] [] []))
        (awsToDelete ["env"] [] [("x", "1")]
          (awsCurrentTags ["env"] [] [])))) = [("x", "1")] ∧
    syncAWSTags ⟨"aws", ["env"], []⟩ "aws:///i-1" [("x", "1")]
      ⟨Except.ok (applyAWSMutations []
        (awsToAdd [("x", "1")] (awsCurrentTags ["env"] [] []))
        (awsToDelete ["env"] [] [("x", "1")]
          (awsCurrentTags ["env"] [] []))), none, none⟩ =
      Except.ok [CloudCall.describeTags "i-1",
        CloudCall.createTags "i-1" [("x", "1")]] :=
  ⟨by decide, by decide, by decide, by decide⟩

theorem syncAWSTags_ok_shape (r : Controller) (pid : String)
    (desired : StrMap) (remote2 : List (String × String))
    (ce de : Option String)
    (hta : awsToAdd desired
      (awsCurrentTags r.labels r.annotations remote2) = [])
    (htd : awsToDelete r.labels r.annotations desired
      (awsCurrentTags r.labels r.annotations remote2) = []) :
    syncAWSTags r pid desired ⟨Except.ok remote2, ce, de⟩ =
      Except.ok [CloudCall.describeTags (goPathBase pid)] := by
  unfold syncAWSTags
  rw [if_neg (goPathBase_ne_empty pid)]
  simp [hta, htd]

theorem syncGCPLabels_noop_shape (r : Controller) (pid : String)
    (desired : StrMap) (inst : GCEInstance) (se : Option String)
    (pr zo nm : String)
    (hparse : parseGCPProviderID pid = Except.ok (pr, zo, nm))
    (heq : StrMap.equalb inst.labels
      (gcpNewLabels r.labels r.annotations desired inst.labels) =
      true) :
    syncGCPLabels r pid desired ⟨Except.ok inst, se⟩ =
      Except.ok [CloudCall.getInstance pr zo nm] := by
  unfold syncGCPLabels
  rw [hparse]
  simp [heq]

/-- Claim C2 amended: against a remote state with unique keys, and —
for the tag-based strategy — a desired state whose keys are all
monitored and non-empty (every desired state built by `Reconcile`
satisfies this), one applied pass makes the second pass a no-op: the
AWS `toAdd` and `toDelete` batches are empty and the second sync
issues only the describe call; the GCP clone built over the
first-pass result equals it, so the second sync issues only the get
call and no label write. -/
theorem sync_idempotent_amended (L A : List String)
    (desired remote fetched : StrMap) (pid pr zo nm fp : String)
    (ce de se : Option String)
    (hnd : StrMap.NodupKeys desired) (hnr : StrMap.NodupKeys remote)
    (hnf : StrMap.NodupKeys fetched)
    (hmon : ∀ p ∈ desired, awsMonitored L A p.1 = true ∧ p.1 ≠ "")
    (hparse : parseGCPProviderID pid = Except.ok (pr, zo, nm)) :
    awsToAdd desired (awsCurrentTags L A (applyAWSMutations remote
      (awsToAdd desired (awsCurrentTags L A remote))
      (awsToDelete L A desired (awsCurrentTags L A remote)))) = [] ∧
    awsToDelete L A desired (awsCurrentTags L A (applyAWSMutations
      remote (awsToAdd desired (awsCurrentTags L A remote))
      (awsToDelete L A desired (awsCurrentTags L A remote)))) = [] ∧
    syncAWSTags ⟨"aws", L, A⟩ pid desired
      ⟨Except.ok (applyAWSMutations remote
        (awsToAdd desired (awsCurrentTags L A remote))
        (awsToDelete L A desired (awsCurrentTags L A remote))),
        ce, de⟩ =
      Except.ok [CloudCall.describeTags (goPathBase pid)] ∧
    StrMap.equalb (gcpNewLabels L A desired fetched)
      (gcpNewLabels L A desired (gcpNewLabels L A desired fetched)) =
      true ∧
    syncGCPLabels ⟨"gcp", L, A⟩ pid desired
      ⟨Except.ok ⟨gcpNewLabels L A desired fetched, fp⟩, se⟩ =
      Except.ok [CloudCall.getInstance pr zo nm] := by
  obtain ⟨hta, htd⟩ :=
    aws_second_pass_empty L A desired remote hnd hnr hmon
  have hgeq : StrMap.equalb (gcpNewLabels L A desired fetched)
      (gcpNewLabels L A desired (gcpNewLabels L A desired fetched)) =
      true :=
    StrMap.equalb_of_ext _ _
      (gcpNewLabels_nodup L A desired fetched hnf)
      (gcpNewLabels_nodup L A desired _
        (gcpNewLabels_nodup L A desired fetched hnf))
      (fun kk => (gcpNewLabels_idem L A desired fetched kk).symm)
  exact ⟨hta, htd,
    syncAWSTags_ok_shape ⟨"aws", L, A⟩ pid desired _ ce de hta htd,
    hgeq,
    syncGCPLabels_noop_shape ⟨"gcp", L, A⟩ pid desired _ se pr zo nm
      hparse hgeq⟩

/-- Witness for `sync_idempotent_amended` at a concrete pass with
monitored label `env`. -/
theorem sync_idempotent_amended_witness :
    awsToAdd [("env", "prod")] (awsCurrentTags ["env"] []
      (applyAWSMutations [("env", "staging"), ("cost-center", "1")]
        (awsToAdd [("env", "prod")] (awsCurrentTags ["env"] []
          [("env", "staging"), ("cost-center", "1")]))
        (awsToDelete ["env"] [] [("env", "prod")]
          (awsCurrentTags ["env"] []
            [("env", "staging"), ("cost-center", "1")])))) = [] ∧
    awsToDelete ["env"] [] [("env", "prod")] (awsCurrentTags ["env"]
      [] (applyAWSMutations
        [("env", "staging"), ("cost-center", "1")]
        (awsToAdd [("env", "prod")] (awsCurrentTags ["env"] []
          [("env", "staging"), ("cost-center", "1")]))
        (awsToDelete ["env"] [] [("env", "prod")]
          (awsCurrentTags ["env"] []
            [("env", "staging"), ("cost-center", "1")])))) = [] ∧
    syncAWSTags ⟨"aws", ["env"], []⟩ "gce://p/z/i" [("env", "prod")]
      ⟨Except.ok (applyAWSMutations
        [("env", "staging"), ("cost-center", "1")]
        (awsToAdd [("env", "prod")] (awsCurrentTags ["env"] []
          [("env", "staging"), ("cost-center", "1")]))
        (awsToDelete ["env"] [] [("env", "prod")]
          (awsCurrentTags ["env"] []
            [("env", "staging"), ("cost-center", "1")]))),
        none, none⟩ =
      Except.ok [CloudCall.describeTags (goPathBase "gce://p/z/i")] ∧
    StrMap.equalb (gcpNewLabels ["env"] [] [("env", "prod")]
        [("env", "staging"), ("cost-center", "1")])
      (gcpNewLabels ["env"] [] [("env", "prod")]
        (gcpNewLabels ["env"] [] [("env", "prod")]
          [("env", "staging"), ("cost-center", "1")])) = true ∧
    syncGCPLabels ⟨"gcp", ["env"], []⟩ "gce://p/z/i" [("env", "prod")]
      ⟨Except.ok ⟨gcpNewLabels ["env"] [] [("env", "prod")]
        [("env", "staging"), ("cost-center", "1")], "fp"⟩, none⟩ =
      Except.ok [CloudCall.getInstance "p" "z" "i"] :=
  sync_idempotent_amended ["env"] [] [("env", "prod")]
    [("env", "staging"), ("cost-center", "1")]
    [("env", "staging"), ("cost-center", "1")]
    "gce://p/z/i" "p" "z" "i" "fp" none none none
    (by unfold StrMap.NodupKeys StrMap.keys; decide)
    (by unfold StrMap.NodupKeys StrMap.keys; decide)
    (by unfold StrMap.NodupKeys StrMap.keys; decide)
    (by decide) (by decide)

/-- Claim C8: the Desired State built by `Reconcile` copies each
monitored label key present on the node and then overwrites with each
monitored annotation key present on the node, so an annotation value
wins a key collision and monitored keys absent from the node produce
no entry; concretely, label `region=A` with annotation `region=B`
(both monitored) yields the single entry `region=B`. -/
theorem desired_state_overlay (L A : List String) (node : Node)
    (k : String) :
    (StrMap.find (buildTagsToSync L A node) k =
      match (if A.contains k then StrMap.find node.annotations k
             else none) with
      | some v => some v
      | none =>
        if L.contains k then StrMap.find node.labels k else none) ∧
    buildTagsToSync ["region"] ["region"]
      ⟨"node1", [("region", "A")], [("region", "B")], ""⟩ =
      [("region", "B")] :=
  ⟨buildTagsToSync_find L A node k, by decide⟩
